import Mathlib

/-!
Shallow embedding of the `marschall` event-dispatch library
(`src/marschall/include/EventDispatcher.hpp`, `Event.h`, `Event.hpp`,
`EventListener.hpp`).

Modelling decisions, each tied to the source:

* `ListenerId` stands for the raw listener address `const IEventListener*`
  used as identity by `SubscriberHash` / `SubscriberEqual`.
* `TypeKey` stands for `typeid(T).hash_code()`; distinct concrete event
  types yield distinct keys (the abstraction of type_info identity).
* An `Event` value carries the key of its dynamic (most-derived) type,
  because `typeid(event)` on a polymorphic glvalue inspects the dynamic
  type, plus a payload distinguishing instances.
* The two callback lambdas stored by `subscribeTo` and `subscribeOnceTo`
  differ only in whether they return `true` after a successful
  `weak.lock()`; this is captured by the `Mode` field and
  `Subscriber.callback`.  `weak.lock()` success is modelled by an `alive`
  predicate supplied at dispatch time.  An `onEvent` invocation is recorded
  as a `Call`.
* `std::unordered_map` is an association list operated on through
  `mapFind` (= `find`) and `mapSet` (write-back of `operator[]` access);
  `std::unordered_set<Subscriber, SubscriberHash, SubscriberEqual>` is a
  list of subscribers with pointer-identity based `setEmplace`
  (= `emplace`, which keeps the existing element when the id is already
  present) and `setEraseId` (= transparent `erase` by id).
* `std::erase_if` over the subscriber set, invoking each callback and
  erasing the ones that returned `false`, is `dispatchSet`.
* The event queue `std::queue<std::unique_ptr<Event>>` is a `List Event`
  with FIFO `queueEvent`/`processQueue`.
-/

namespace Marschall

/-- Surrogate for the raw listener address `const IEventListener*`. -/
abbrev ListenerId := Nat

/-- Surrogate for `typeid(T).hash_code()`. -/
abbrev TypeKey := Nat

/-- An event instance: `typeKey` is the key of its dynamic (most-derived)
concrete type, `payload` distinguishes instances of the same type. -/
structure Event where
  typeKey : TypeKey
  payload : Nat
deriving DecidableEq, Repr

/-- Which of the two subscription lambdas was stored:
`persistent` for `subscribeTo`, `oneShot` for `subscribeOnceTo`. -/
inductive Mode where
  | persistent
  | oneShot
deriving DecidableEq, Repr

/-- `EventDispatcher::Subscriber`: the listener identity plus the stored
callback, the latter represented by its `Mode`. -/
structure Subscriber where
  id : ListenerId
  mode : Mode
deriving DecidableEq, Repr

/-- A record of one `listener->onEvent(event)` invocation. -/
structure Call where
  listener : ListenerId
  event : Event
deriving DecidableEq, Repr

/-- The stored callback.  `alive s.id` models `weak.lock()` succeeding.
Returns the `onEvent` invocations performed and the boolean result of the
C++ lambda (`false` makes `erase_if` remove the subscriber):

* `subscribeTo` lambda: if lock succeeds, call `onEvent`, return `true`;
  otherwise return `false`.
* `subscribeOnceTo` lambda: if lock succeeds, call `onEvent`; always
  return `false`. -/
def Subscriber.callback (alive : ListenerId → Bool) (s : Subscriber) (e : Event) :
    List Call × Bool :=
  match s.mode with
  | .persistent => if alive s.id then ([⟨s.id, e⟩], true) else ([], false)
  | .oneShot => if alive s.id then ([⟨s.id, e⟩], false) else ([], false)

/-- One per-type subscription set (`std::unordered_set<Subscriber, ...>`). -/
abbrev SubSet := List Subscriber

/-- The registry `std::unordered_map<size_t, SubSet>`. -/
abbrev SubMap := List (TypeKey × SubSet)

/-- `subscriptions.find(k)`. -/
def mapFind (m : SubMap) (k : TypeKey) : Option SubSet :=
  match m with
  | [] => none
  | (k', s) :: rest => if k' = k then some s else mapFind rest k

/-- The set `subscriptions[k]` refers to: the stored set, or the freshly
default-constructed empty set when `k` is absent. -/
def mapRef (m : SubMap) (k : TypeKey) : SubSet :=
  (mapFind m k).getD []

/-- Writing back the set obtained through `subscriptions[k]`: update the
entry for `k`, inserting it when absent (as `operator[]` does). -/
def mapSet (m : SubMap) (k : TypeKey) (v : SubSet) : SubMap :=
  match m with
  | [] => [(k, v)]
  | (k', s) :: rest => if k' = k then (k, v) :: rest else (k', s) :: mapSet rest k v

/-- `subs.emplace(Subscriber{id, callback})`: insertion into the
identity-keyed `unordered_set` fails (keeps the existing element) when an
element with the same `id` is already present. -/
def setEmplace (s : SubSet) (sub : Subscriber) : SubSet :=
  if s.any (fun x => x.id == sub.id) then s else s ++ [sub]

/-- `subs.erase(id)` via the transparent comparator: removes the element
with the given identity, if any. -/
def setEraseId (s : SubSet) (i : ListenerId) : SubSet :=
  s.filter (fun x => x.id != i)

/-- `std::erase_if(set, [&](const Subscriber& s){ return !s.callback(event); })`:
run every subscriber's callback on the event, keep exactly those whose
callback returned `true`, and collect the `onEvent` invocations in
iteration order. -/
def dispatchSet (alive : ListenerId → Bool) (e : Event) : SubSet → SubSet × List Call
  | [] => ([], [])
  | sub :: rest =>
    let c := sub.callback alive e
    let r := dispatchSet alive e rest
    (if c.2 then sub :: r.1 else r.1, c.1 ++ r.2)

/-- The dispatcher state: the subscription registry and the FIFO event
queue. -/
structure EventDispatcher where
  subscriptions : SubMap
  eventQueue : List Event
deriving DecidableEq, Repr

/-- `EventDispatcher::subscribeTo<EType>(listener)`:
`subscriptions[typeid(EType).hash_code()].emplace(Subscriber{id, persistentLambda})`. -/
def EventDispatcher.subscribeTo (d : EventDispatcher) (k : TypeKey) (i : ListenerId) :
    EventDispatcher :=
  { d with subscriptions :=
      mapSet d.subscriptions k (setEmplace (mapRef d.subscriptions k) ⟨i, .persistent⟩) }

/-- `EventDispatcher::subscribeOnceTo<EType>(listener)`: same registration
with the one-shot lambda. -/
def EventDispatcher.subscribeOnceTo (d : EventDispatcher) (k : TypeKey) (i : ListenerId) :
    EventDispatcher :=
  { d with subscriptions :=
      mapSet d.subscriptions k (setEmplace (mapRef d.subscriptions k) ⟨i, .oneShot⟩) }

/-- The private `EventDispatcher::unsubscribeFrom<EType>(id)`:
`subscriptions[typeid(EType).hash_code()].erase(id)`.  Note `operator[]`
inserts an empty set when the key is absent.  The public typed overload
just forwards `listener.get()` here. -/
def EventDispatcher.unsubscribeFrom (d : EventDispatcher) (k : TypeKey) (i : ListenerId) :
    EventDispatcher :=
  { d with subscriptions :=
      mapSet d.subscriptions k (setEraseId (mapRef d.subscriptions k) i) }

/-- Registry part of `EventDispatcher::dispatch(const Event&)`:
find the set for the event's dynamic type key; if present, `erase_if`
with the callbacks; a missing key is a silent no-op. -/
def dispatchSubs (alive : ListenerId → Bool) (e : Event) (m : SubMap) :
    SubMap × List Call :=
  match mapFind m e.typeKey with
  | none => (m, [])
  | some s =>
    let p := dispatchSet alive e s
    (mapSet m e.typeKey p.1, p.2)

/-- `EventDispatcher::dispatch(const Event& event)`: routes by
`typeid(event).hash_code()`, the key of the event's dynamic type. -/
def EventDispatcher.dispatch (d : EventDispatcher) (alive : ListenerId → Bool)
    (e : Event) : EventDispatcher × List Call :=
  let p := dispatchSubs alive e d.subscriptions
  ({ d with subscriptions := p.1 }, p.2)

/-- `EventDispatcher::dispatch<EType>(const EType& event)`: the typed
overload.  `k` is the template argument's key `typeid(EType).hash_code()`;
calling it on an instance of `EType` means `e.typeKey = k`.  The body is
the same `find` + `erase_if` as the generic overload. -/
def EventDispatcher.dispatchTyped (d : EventDispatcher) (alive : ListenerId → Bool)
    (k : TypeKey) (e : Event) : EventDispatcher × List Call :=
  match mapFind d.subscriptions k with
  | none => (d, [])
  | some s =>
    let p := dispatchSet alive e s
    ({ d with subscriptions := mapSet d.subscriptions k p.1 }, p.2)

/-- `EventDispatcher::queueEvent`: push onto the FIFO queue's tail. -/
def EventDispatcher.queueEvent (d : EventDispatcher) (e : Event) : EventDispatcher :=
  { d with eventQueue := d.eventQueue ++ [e] }

/-- The `while (!eventQueue.empty()) { dispatch(*front); pop; }` loop of
`processQueue`, threading the registry through successive dispatches. -/
def processQueueAux (alive : ListenerId → Bool) :
    List Event → SubMap → SubMap × List Call
  | [], m => (m, [])
  | e :: rest, m =>
    let p := dispatchSubs alive e m
    let q := processQueueAux alive rest p.1
    (q.1, p.2 ++ q.2)

/-- `EventDispatcher::processQueue()`: drain the queue front-to-back,
dispatching each event, leaving the queue empty. -/
def EventDispatcher.processQueue (d : EventDispatcher) (alive : ListenerId → Bool) :
    EventDispatcher × List Call :=
  let p := processQueueAux alive d.eventQueue d.subscriptions
  (⟨p.1, []⟩, p.2)

/-- The order in which `processQueue`'s live `while` loop dispatches events
when the dispatch of event `e` itself enqueues the events `gen e` (a
listener calling `queueEvent` from inside its callback).  `fuel` bounds the
loop (the C++ loop may run forever if listeners keep enqueueing); `none`
means the fuel ran out before the queue emptied. -/
def drainOrder (gen : Event → List Event) : Nat → List Event → Option (List Event)
  | _, [] => some []
  | 0, _ :: _ => none
  | n + 1, e :: rest =>
    (drainOrder gen n (rest ++ gen e)).map (fun tr => e :: tr)

/-- Number of `onEvent` invocations delivered to listener `L` in a call
trace. -/
def callsTo (L : ListenerId) (cs : List Call) : Nat :=
  (cs.filter (fun c => c.listener == L)).length

/-- The registry invariant of the spec: every stored subscription set has
at most one entry per distinct listener identity (the structural guarantee
of the identity-keyed `unordered_set`). -/
def SubMapWF (m : SubMap) : Prop :=
  ∀ p ∈ m, (p.2.map Subscriber.id).Nodup

/-- The invariant lifted to a dispatcher state. -/
def EventDispatcher.WF (d : EventDispatcher) : Prop :=
  SubMapWF d.subscriptions

instance : DecidablePred SubMapWF := fun m =>
  inferInstanceAs (Decidable (∀ p ∈ m, (p.2.map Subscriber.id).Nodup))

instance (d : EventDispatcher) : Decidable d.WF :=
  inferInstanceAs (Decidable (SubMapWF d.subscriptions))

end Marschall

namespace Marschall.EventH

/-!
Model of `src/marschall/include/Event.h`: the per-type identity-key
scaffolding.  `getEventTypeKey<EType>()` contains one function-local
`static int key` per template instantiation and returns its address;
distinct instantiations own distinct statics, so distinct types get
distinct addresses.  We model the address of the per-type static by the
type's instantiation index itself, which is exactly the guarantee the
address mechanism provides: one fixed key per type, different across
types. -/

/-- A concrete event type (one template instantiation of `EventBase`). -/
abbrev TypeId := Nat

/-- `using EventTypeKey = const void*`: the opaque key, modelled as the
address of the per-instantiation static. -/
abbrev EventTypeKey := Nat

/-- `getEventTypeKey<EType>()`: the address of the function-local static
belonging to instantiation `t`. -/
def getEventTypeKey (t : TypeId) : EventTypeKey := t

/-- `EventBase<EType>::getStaticTypeKey()`. -/
def getStaticTypeKey (t : TypeId) : EventTypeKey := getEventTypeKey t

/-- A value of some concrete event type deriving `EventBase`; `dynType`
is its dynamic (most-derived) type and `payload` its per-instance data
(which the key mechanism never looks at). -/
structure EventValue where
  dynType : TypeId
  payload : Nat
deriving DecidableEq, Repr

/-- The virtual `getTypeKey()` override: virtual dispatch selects the
`EventBase<EType>` override for the value's dynamic type, which returns
`getStaticTypeKey()` of that type. -/
def getTypeKey (e : EventValue) : EventTypeKey :=
  getStaticTypeKey e.dynType

end Marschall.EventH

namespace Marschall

theorem callsTo_append (L : ListenerId) (a b : List Call) :
    callsTo L (a ++ b) = callsTo L a + callsTo L b := by
  simp [callsTo, List.filter_append]

theorem mapFind_mapSet_self (m : SubMap) (k : TypeKey) (v : SubSet) :
    mapFind (mapSet m k v) k = some v := by
  induction m with
  | nil => simp [mapSet, mapFind]
  | cons p rest ih =>
    obtain ⟨k', s⟩ := p
    by_cases h : k' = k
    · simp [mapSet, h, mapFind]
    · simp [mapSet, h, mapFind, ih]

theorem mapFind_mapSet_ne (m : SubMap) (k k' : TypeKey) (v : SubSet) (h : k' ≠ k) :
    mapFind (mapSet m k v) k' = mapFind m k' := by
  have hk : k ≠ k' := Ne.symm h
  induction m with
  | nil => simp [mapSet, mapFind, hk]
  | cons p rest ih =>
    obtain ⟨k0, s⟩ := p
    by_cases h0 : k0 = k
    · subst h0
      simp [mapSet, mapFind, hk]
    · simp [mapSet, h0, mapFind, ih]

theorem mapRef_mapSet_self (m : SubMap) (k : TypeKey) (v : SubSet) :
    mapRef (mapSet m k v) k = v := by
  simp [mapRef, mapFind_mapSet_self]

theorem mapRef_mapSet_ne (m : SubMap) (k k' : TypeKey) (v : SubSet) (h : k' ≠ k) :
    mapRef (mapSet m k v) k' = mapRef m k' := by
  simp [mapRef, mapFind_mapSet_ne m k k' v h]

theorem mapRef_mapSet_ref (m : SubMap) (k k' : TypeKey) :
    mapRef (mapSet m k (mapRef m k)) k' = mapRef m k' := by
  by_cases h : k' = k
  · subst h; exact mapRef_mapSet_self m k' (mapRef m k')
  · exact mapRef_mapSet_ne m k k' (mapRef m k) h

theorem mapFind_mem (m : SubMap) (k : TypeKey) (s : SubSet)
    (h : mapFind m k = some s) : (k, s) ∈ m := by
  induction m with
  | nil => simp [mapFind] at h
  | cons p rest ih =>
    obtain ⟨k', s'⟩ := p
    by_cases hk : k' = k
    · subst hk
      simp [mapFind] at h
      subst h
      exact List.mem_cons_self _ _
    · simp [mapFind, hk] at h
      exact List.mem_cons_of_mem _ (ih h)

theorem dispatchSet_sublist (alive : ListenerId → Bool) (e : Event) (s : SubSet) :
    (dispatchSet alive e s).1.Sublist s := by
  induction s with
  | nil => simp [dispatchSet]
  | cons sub rest ih =>
    simp only [dispatchSet]
    by_cases h : (sub.callback alive e).2
    · simpa [h] using ih.cons₂ sub
    · simpa [h] using ih.cons sub

theorem dispatchSet_mem (alive : ListenerId → Bool) (e : Event) (s : SubSet)
    (x : Subscriber) (hx : x ∈ (dispatchSet alive e s).1) : x ∈ s :=
  (dispatchSet_sublist alive e s).subset hx

theorem callsTo_callback (L : ListenerId) (alive : ListenerId → Bool)
    (sub : Subscriber) (e : Event) (h : sub.id ≠ L) :
    callsTo L (sub.callback alive e).1 = 0 := by
  cases hm : sub.mode <;> cases ha : alive sub.id <;>
    simp [Subscriber.callback, hm, ha, callsTo, h]

theorem callsTo_dispatchSet_absent (L : ListenerId) (alive : ListenerId → Bool)
    (e : Event) (s : SubSet) (h : ∀ x ∈ s, x.id ≠ L) :
    callsTo L (dispatchSet alive e s).2 = 0 := by
  induction s with
  | nil => simp [dispatchSet, callsTo]
  | cons sub rest ih =>
    have h1 : sub.id ≠ L := h sub (List.mem_cons_self _ _)
    have h2 : ∀ x ∈ rest, x.id ≠ L := fun x hx => h x (List.mem_cons_of_mem _ hx)
    simp only [dispatchSet, callsTo_append]
    rw [callsTo_callback L alive sub e h1, ih h2]

theorem callsTo_dispatchSubs_absent (L : ListenerId) (alive : ListenerId → Bool)
    (e : Event) (m : SubMap) (h : ∀ x ∈ mapRef m e.typeKey, x.id ≠ L) :
    callsTo L (dispatchSubs alive e m).2 = 0 := by
  cases hf : mapFind m e.typeKey with
  | none => simp [dispatchSubs, hf, callsTo]
  | some s =>
    have hs : mapRef m e.typeKey = s := by simp [mapRef, hf]
    rw [hs] at h
    simp only [dispatchSubs, hf]
    exact callsTo_dispatchSet_absent L alive e s h

end Marschall

namespace Marschall

theorem callsTo_cons_self (L : ListenerId) (e : Event) (cs : List Call) :
    callsTo L (Call.mk L e :: cs) = callsTo L cs + 1 := by
  simp [callsTo]

theorem dispatchSet_persistent (alive : ListenerId → Bool) (e : Event) (s : SubSet)
    (L : ListenerId) (hnd : (s.map Subscriber.id).Nodup)
    (hmem : Subscriber.mk L Mode.persistent ∈ s) (halive : alive L = true) :
    callsTo L (dispatchSet alive e s).2 = 1 ∧
    Subscriber.mk L Mode.persistent ∈ (dispatchSet alive e s).1 := by
  induction s with
  | nil => simp at hmem
  | cons sub rest ih =>
    rw [List.map_cons, List.nodup_cons] at hnd
    rcases List.mem_cons.mp hmem with hh | ht
    · have hsub : sub = Subscriber.mk L Mode.persistent := hh.symm
      subst hsub
      have hrest : ∀ x ∈ rest, x.id ≠ L := by
        intro x hx hxL
        exact hnd.1 (by simpa [hxL] using List.mem_map_of_mem Subscriber.id hx)
      have hstep : dispatchSet alive e (Subscriber.mk L Mode.persistent :: rest) =
          (Subscriber.mk L Mode.persistent :: (dispatchSet alive e rest).1,
            Call.mk L e :: (dispatchSet alive e rest).2) := by
        simp [dispatchSet, Subscriber.callback, halive]
      constructor
      · rw [hstep]
        rw [show (Subscriber.mk L Mode.persistent :: (dispatchSet alive e rest).1,
            Call.mk L e :: (dispatchSet alive e rest).2).2 =
            Call.mk L e :: (dispatchSet alive e rest).2 from rfl]
        rw [callsTo_cons_self, callsTo_dispatchSet_absent L alive e rest hrest]
      · rw [hstep]
        exact List.mem_cons_self _ _
    · have hidmem : L ∈ rest.map Subscriber.id :=
        List.mem_map_of_mem Subscriber.id ht
      have hsub : sub.id ≠ L := fun hL => hnd.1 (by rw [hL]; exact hidmem)
      obtain ⟨ih1, ih2⟩ := ih hnd.2 ht
      constructor
      · simp [dispatchSet, callsTo_append, callsTo_callback L alive sub e hsub, ih1]
      · simp only [dispatchSet]
        by_cases hc : (sub.callback alive e).2 <;> simp [hc, ih2]

theorem dispatchSet_oneShot (alive : ListenerId → Bool) (e : Event) (s : SubSet)
    (L : ListenerId) (hnd : (s.map Subscriber.id).Nodup)
    (hmem : Subscriber.mk L Mode.oneShot ∈ s) :
    callsTo L (dispatchSet alive e s).2 = (if alive L then 1 else 0) ∧
    ∀ x ∈ (dispatchSet alive e s).1, x.id ≠ L := by
  induction s with
  | nil => simp at hmem
  | cons sub rest ih =>
    rw [List.map_cons, List.nodup_cons] at hnd
    rcases List.mem_cons.mp hmem with hh | ht
    · have hsub : sub = Subscriber.mk L Mode.oneShot := hh.symm
      subst hsub
      have hrest : ∀ x ∈ rest, x.id ≠ L := by
        intro x hx hxL
        exact hnd.1 (by simpa [hxL] using List.mem_map_of_mem Subscriber.id hx)
      constructor
      · cases halive : alive L with
        | false =>
          have hstep : (dispatchSet alive e (Subscriber.mk L Mode.oneShot :: rest)).2 =
              (dispatchSet alive e rest).2 := by
            simp [dispatchSet, Subscriber.callback, halive]
          rw [hstep, callsTo_dispatchSet_absent L alive e rest hrest]
          simp
        | true =>
          have hstep : (dispatchSet alive e (Subscriber.mk L Mode.oneShot :: rest)).2 =
              Call.mk L e :: (dispatchSet alive e rest).2 := by
            simp [dispatchSet, Subscriber.callback, halive]
          rw [hstep, callsTo_cons_self, callsTo_dispatchSet_absent L alive e rest hrest]
          simp
      · intro x hx
        have hx' : x ∈ (dispatchSet alive e rest).1 := by
          cases halive : alive L <;>
            simpa [dispatchSet, Subscriber.callback, halive] using hx
        exact hrest x (dispatchSet_mem alive e rest x hx')
    · have hidmem : L ∈ rest.map Subscriber.id :=
        List.mem_map_of_mem Subscriber.id ht
      have hsub : sub.id ≠ L := fun hL => hnd.1 (by rw [hL]; exact hidmem)
      obtain ⟨ih1, ih2⟩ := ih hnd.2 ht
      constructor
      · simp [dispatchSet, callsTo_append, callsTo_callback L alive sub e hsub, ih1]
      · intro x hx
        simp only [dispatchSet] at hx
        by_cases hc : (sub.callback alive e).2
        · simp only [hc, if_pos] at hx
          rcases List.mem_cons.mp hx with hxx | hxx
          · exact hxx ▸ hsub
          · exact ih2 x hxx
        · simp only [hc] at hx
          exact ih2 x (by simpa using hx)

theorem dispatchSet_dead (alive : ListenerId → Bool) (e : Event) (s : SubSet)
    (L : ListenerId) (hdead : alive L = false) :
    callsTo L (dispatchSet alive e s).2 = 0 ∧
    ∀ x ∈ (dispatchSet alive e s).1, x.id ≠ L := by
  induction s with
  | nil => simp [dispatchSet, callsTo]
  | cons sub rest ih =>
    obtain ⟨ih1, ih2⟩ := ih
    by_cases hsub : sub.id = L
    · have hcb : sub.callback alive e = ([], false) := by
        cases hm : sub.mode <;> simp [Subscriber.callback, hm, hsub, hdead]
      constructor
      · have hstep : (dispatchSet alive e (sub :: rest)).2 =
            (dispatchSet alive e rest).2 := by
          simp [dispatchSet, hcb]
        rw [hstep, ih1]
      · intro x hx
        exact ih2 x (by simpa [dispatchSet, hcb] using hx)
    · constructor
      · simp [dispatchSet, callsTo_append, callsTo_callback L alive sub e hsub, ih1]
      · intro x hx
        simp only [dispatchSet] at hx
        by_cases hc : (sub.callback alive e).2
        · simp only [hc, if_pos] at hx
          rcases List.mem_cons.mp hx with hxx | hxx
          · exact hxx ▸ hsub
          · exact ih2 x hxx
        · simp only [hc] at hx
          exact ih2 x (by simpa using hx)

theorem mem_mapSet (m : SubMap) (k : TypeKey) (v : SubSet) (p : TypeKey × SubSet)
    (hp : p ∈ mapSet m k v) : p = (k, v) ∨ p ∈ m := by
  induction m with
  | nil => simpa [mapSet] using hp
  | cons q rest ih =>
    obtain ⟨k0, s⟩ := q
    by_cases h0 : k0 = k
    · simp only [mapSet, h0, if_pos, List.mem_cons] at hp
      rcases hp with h | h
      · exact Or.inl h
      · exact Or.inr (List.mem_cons_of_mem _ h)
    · simp only [mapSet, h0, ite_false, List.mem_cons] at hp
      rcases hp with h | h
      · exact Or.inr (by simp [h])
      · rcases ih h with h' | h'
        · exact Or.inl h'
        · exact Or.inr (List.mem_cons_of_mem _ h')

theorem SubMapWF_mapSet (m : SubMap) (k : TypeKey) (v : SubSet)
    (hm : SubMapWF m) (hv : (v.map Subscriber.id).Nodup) :
    SubMapWF (mapSet m k v) := by
  intro p hp
  rcases mem_mapSet m k v p hp with h | h
  · rw [h]
    exact hv
  · exact hm p h

theorem SubMapWF_mapRef (m : SubMap) (k : TypeKey) (h : SubMapWF m) :
    ((mapRef m k).map Subscriber.id).Nodup := by
  cases hf : mapFind m k with
  | none => simp [mapRef, hf]
  | some s =>
    have hs := h (k, s) (mapFind_mem m k s hf)
    simpa [mapRef, hf] using hs

theorem setEmplace_nodup (s : SubSet) (sub : Subscriber)
    (h : (s.map Subscriber.id).Nodup) :
    ((setEmplace s sub).map Subscriber.id).Nodup := by
  unfold setEmplace
  by_cases ha : s.any (fun x => x.id == sub.id) = true
  · simpa [ha] using h
  · have hnot : sub.id ∉ s.map Subscriber.id := by
      intro hmem
      rcases List.mem_map.mp hmem with ⟨x, hx, hxid⟩
      exact ha (List.any_eq_true.mpr ⟨x, hx, by simp [hxid]⟩)
    simp [ha, List.nodup_append, h, hnot]

theorem setEraseId_nodup (s : SubSet) (i : ListenerId)
    (h : (s.map Subscriber.id).Nodup) :
    ((setEraseId s i).map Subscriber.id).Nodup :=
  h.sublist ((List.filter_sublist s).map Subscriber.id)

theorem SubMapWF_dispatchSubs (alive : ListenerId → Bool) (e : Event) (m : SubMap)
    (h : SubMapWF m) : SubMapWF (dispatchSubs alive e m).1 := by
  cases hf : mapFind m e.typeKey with
  | none => simpa [dispatchSubs, hf] using h
  | some s =>
    simp only [dispatchSubs, hf]
    apply SubMapWF_mapSet m _ _ h
    have hs : (s.map Subscriber.id).Nodup := h (e.typeKey, s) (mapFind_mem _ _ _ hf)
    exact hs.sublist ((dispatchSet_sublist alive e s).map Subscriber.id)

theorem SubMapWF_processQueueAux (alive : ListenerId → Bool) (q : List Event)
    (m : SubMap) (h : SubMapWF m) : SubMapWF (processQueueAux alive q m).1 := by
  induction q generalizing m with
  | nil => simpa [processQueueAux] using h
  | cons e rest ih =>
    simp only [processQueueAux]
    exact ih _ (SubMapWF_dispatchSubs alive e m h)

end Marschall

namespace Marschall

theorem mapFind_of_mem_mapRef (m : SubMap) (k : TypeKey) (x : Subscriber)
    (hx : x ∈ mapRef m k) : mapFind m k = some (mapRef m k) := by
  cases hf : mapFind m k with
  | none => simp [mapRef, hf] at hx
  | some s => simp [mapRef, hf]

theorem dispatch_found (d : EventDispatcher) (alive : ListenerId → Bool) (e : Event)
    (hf : mapFind d.subscriptions e.typeKey = some (mapRef d.subscriptions e.typeKey)) :
    (d.dispatch alive e).2 = (dispatchSet alive e (mapRef d.subscriptions e.typeKey)).2 ∧
    mapRef (d.dispatch alive e).1.subscriptions e.typeKey =
      (dispatchSet alive e (mapRef d.subscriptions e.typeKey)).1 ∧
    (d.dispatch alive e).1.eventQueue = d.eventQueue := by
  refine ⟨?_, ?_, rfl⟩
  · show (dispatchSubs alive e d.subscriptions).2 = _
    simp [dispatchSubs, hf]
  · show mapRef (dispatchSubs alive e d.subscriptions).1 e.typeKey = _
    simp [dispatchSubs, hf, mapRef_mapSet_self]

/-- C1: a listener `L` holding a live `Persistent` subscription under event
type key `k` receives exactly one `onEvent` call from a dispatch of an
instance of that type, and the subscription is still registered after the
dispatch. -/
theorem persistent_subscription_dispatch_C1
    (d : EventDispatcher) (alive : ListenerId → Bool) (L : ListenerId)
    (k : TypeKey) (e : Event) (hwf : d.WF)
    (hmem : Subscriber.mk L Mode.persistent ∈ mapRef d.subscriptions k)
    (halive : alive L = true) (hkey : e.typeKey = k) :
    callsTo L (d.dispatch alive e).2 = 1 ∧
    Subscriber.mk L Mode.persistent ∈ mapRef (d.dispatch alive e).1.subscriptions k := by
  subst hkey
  have hf := mapFind_of_mem_mapRef d.subscriptions e.typeKey _ hmem
  obtain ⟨h2, h1, _⟩ := dispatch_found d alive e hf
  have hnd := SubMapWF_mapRef d.subscriptions e.typeKey hwf
  obtain ⟨hc, hm⟩ := dispatchSet_persistent alive e _ L hnd hmem halive
  exact ⟨by rw [h2]; exact hc, by rw [h1]; exact hm⟩

/-- Witness for C1: one persistent subscriber, one dispatch, one call,
subscription intact. -/
theorem persistent_subscription_dispatch_C1_witness :
    callsTo 7 ((EventDispatcher.mk [(0, [Subscriber.mk 7 Mode.persistent])] []).dispatch
        (fun _ => true) (Event.mk 0 3)).2 = 1 ∧
    Subscriber.mk 7 Mode.persistent ∈
      mapRef ((EventDispatcher.mk [(0, [Subscriber.mk 7 Mode.persistent])] []).dispatch
        (fun _ => true) (Event.mk 0 3)).1.subscriptions 0 :=
  persistent_subscription_dispatch_C1 _ _ 7 0 _ (by decide) (by decide) rfl rfl

/-- C2: a `OneShot` subscription for `L` under key `k` is invoked exactly
once by the first dispatch when `L` is alive and never when dead, the entry
is removed by that dispatch either way, and any later dispatch of the same
type performs no calls to `L`. -/
theorem oneshot_subscription_dispatch_C2
    (d : EventDispatcher) (alive : ListenerId → Bool) (L : ListenerId)
    (k : TypeKey) (e : Event) (hwf : d.WF)
    (hmem : Subscriber.mk L Mode.oneShot ∈ mapRef d.subscriptions k)
    (hkey : e.typeKey = k) :
    callsTo L (d.dispatch alive e).2 = (if alive L then 1 else 0) ∧
    (∀ x ∈ mapRef (d.dispatch alive e).1.subscriptions k, x.id ≠ L) ∧
    ∀ (alive2 : ListenerId → Bool) (e2 : Event), e2.typeKey = k →
      callsTo L ((d.dispatch alive e).1.dispatch alive2 e2).2 = 0 := by
  subst hkey
  have hf := mapFind_of_mem_mapRef d.subscriptions e.typeKey _ hmem
  obtain ⟨h2, h1, _⟩ := dispatch_found d alive e hf
  have hnd := SubMapWF_mapRef d.subscriptions e.typeKey hwf
  obtain ⟨hc, habs⟩ := dispatchSet_oneShot alive e _ L hnd hmem
  refine ⟨by rw [h2]; exact hc, by rw [h1]; exact habs, ?_⟩
  intro alive2 e2 hk2
  have hall : ∀ x ∈ mapRef (d.dispatch alive e).1.subscriptions e2.typeKey, x.id ≠ L := by
    rw [hk2, h1]; exact habs
  exact callsTo_dispatchSubs_absent L alive2 e2 _ hall

/-- Witness for C2: one one-shot subscriber, first dispatch calls it once,
entry removed, second dispatch performs zero calls. -/
theorem oneshot_subscription_dispatch_C2_witness :
    callsTo 7 ((EventDispatcher.mk [(0, [Subscriber.mk 7 Mode.oneShot])] []).dispatch
        (fun _ => true) (Event.mk 0 4)).2 = 1 ∧
    Subscriber.mk 7 Mode.oneShot ∉
      mapRef ((EventDispatcher.mk [(0, [Subscriber.mk 7 Mode.oneShot])] []).dispatch
        (fun _ => true) (Event.mk 0 4)).1.subscriptions 0 ∧
    callsTo 7 (((EventDispatcher.mk [(0, [Subscriber.mk 7 Mode.oneShot])] []).dispatch
        (fun _ => true) (Event.mk 0 4)).1.dispatch (fun _ => true) (Event.mk 0 5)).2 = 0 := by
  obtain ⟨h1, h2, h3⟩ := oneshot_subscription_dispatch_C2
    (EventDispatcher.mk [(0, [Subscriber.mk 7 Mode.oneShot])] []) (fun _ => true) 7 0
    (Event.mk 0 4) (by decide) (by decide) rfl
  exact ⟨h1, fun hm => h2 _ hm rfl, h3 (fun _ => true) (Event.mk 0 5) rfl⟩

/-- C5: when every owning handle of `L` has been released before a dispatch
of a matching type (the weak reference no longer resolves), that dispatch
performs zero calls to `L`, removes `L`'s entry, and any subsequent dispatch
of the same type also performs zero calls to `L`. -/
theorem expired_listener_dispatch_C5
    (d : EventDispatcher) (alive : ListenerId → Bool) (L : ListenerId)
    (k : TypeKey) (e : Event) (sub : Subscriber) (hdead : alive L = false)
    (hmem : sub ∈ mapRef d.subscriptions k) (_hid : sub.id = L)
    (hkey : e.typeKey = k) :
    callsTo L (d.dispatch alive e).2 = 0 ∧
    (∀ x ∈ mapRef (d.dispatch alive e).1.subscriptions k, x.id ≠ L) ∧
    ∀ (alive2 : ListenerId → Bool) (e2 : Event), e2.typeKey = k →
      callsTo L ((d.dispatch alive e).1.dispatch alive2 e2).2 = 0 := by
  subst hkey
  have hf := mapFind_of_mem_mapRef d.subscriptions e.typeKey sub hmem
  obtain ⟨h2, h1, _⟩ := dispatch_found d alive e hf
  obtain ⟨hc, habs⟩ := dispatchSet_dead alive e (mapRef d.subscriptions e.typeKey) L hdead
  refine ⟨by rw [h2]; exact hc, by rw [h1]; exact habs, ?_⟩
  intro alive2 e2 hk2
  have hall : ∀ x ∈ mapRef (d.dispatch alive e).1.subscriptions e2.typeKey, x.id ≠ L := by
    rw [hk2, h1]; exact habs
  exact callsTo_dispatchSubs_absent L alive2 e2 _ hall

/-- Witness for C5: the sole handle of listener 7 is dead at dispatch time;
the dispatch performs zero calls, prunes the entry, and a second dispatch
also performs zero calls. -/
theorem expired_listener_dispatch_C5_witness :
    callsTo 7 ((EventDispatcher.mk [(0, [Subscriber.mk 7 Mode.persistent])] []).dispatch
        (fun _ => false) (Event.mk 0 4)).2 = 0 ∧
    Subscriber.mk 7 Mode.persistent ∉
      mapRef ((EventDispatcher.mk [(0, [Subscriber.mk 7 Mode.persistent])] []).dispatch
        (fun _ => false) (Event.mk 0 4)).1.subscriptions 0 ∧
    callsTo 7 (((EventDispatcher.mk [(0, [Subscriber.mk 7 Mode.persistent])] []).dispatch
        (fun _ => false) (Event.mk 0 4)).1.dispatch (fun _ => true) (Event.mk 0 5)).2 = 0 := by
  obtain ⟨h1, h2, h3⟩ := expired_listener_dispatch_C5
    (EventDispatcher.mk [(0, [Subscriber.mk 7 Mode.persistent])] []) (fun _ => false) 7 0
    (Event.mk 0 4) (Subscriber.mk 7 Mode.persistent) rfl (by decide) rfl rfl
  exact ⟨h1, fun hm => h2 _ hm rfl, h3 (fun _ => true) (Event.mk 0 5) rfl⟩

end Marschall

namespace Marschall

/-- C6: `unsubscribeFrom<T>(L)` removes the entry for `L`'s identity under
`T`'s key if present, after which dispatches of that type invoke `L` zero
times; when no such entry is present the call leaves every per-key
subscription set observably unchanged (silent no-op). -/
theorem unsubscribe_then_dispatch_C6 (d : EventDispatcher) (k : TypeKey)
    (L : ListenerId) :
    (∀ x ∈ mapRef (d.unsubscribeFrom k L).subscriptions k, x.id ≠ L) ∧
    (∀ (alive : ListenerId → Bool) (e : Event), e.typeKey = k →
      callsTo L ((d.unsubscribeFrom k L).dispatch alive e).2 = 0) ∧
    ((∀ x ∈ mapRef d.subscriptions k, x.id ≠ L) →
      ∀ k', mapRef (d.unsubscribeFrom k L).subscriptions k' =
        mapRef d.subscriptions k') := by
  have hset : mapRef (d.unsubscribeFrom k L).subscriptions k =
      setEraseId (mapRef d.subscriptions k) L := by
    show mapRef (mapSet d.subscriptions k (setEraseId (mapRef d.subscriptions k) L)) k = _
    rw [mapRef_mapSet_self]
  have herase : ∀ x ∈ setEraseId (mapRef d.subscriptions k) L, x.id ≠ L := by
    intro x hx
    have hpx := List.of_mem_filter hx
    simpa using hpx
  refine ⟨by rw [hset]; exact herase, ?_, ?_⟩
  · intro alive e hkey
    have hall : ∀ x ∈ mapRef (d.unsubscribeFrom k L).subscriptions e.typeKey,
        x.id ≠ L := by
      rw [hkey, hset]; exact herase
    exact callsTo_dispatchSubs_absent L alive e _ hall
  · intro habs k'
    have hnoop : setEraseId (mapRef d.subscriptions k) L = mapRef d.subscriptions k := by
      apply List.filter_eq_self.mpr
      intro x hx
      simpa using habs x hx
    calc mapRef (d.unsubscribeFrom k L).subscriptions k'
        = mapRef (mapSet d.subscriptions k
            (setEraseId (mapRef d.subscriptions k) L)) k' := rfl
      _ = mapRef (mapSet d.subscriptions k (mapRef d.subscriptions k)) k' := by
            rw [hnoop]
      _ = mapRef d.subscriptions k' := mapRef_mapSet_ref _ _ _

/-- Witness for C6: unsubscribing listener 7 removes its entry and a
dispatch then performs zero calls; unsubscribing the absent listener 9
leaves the registry observably unchanged. -/
theorem unsubscribe_then_dispatch_C6_witness :
    Subscriber.mk 7 Mode.persistent ∉
      mapRef ((EventDispatcher.mk [(0, [Subscriber.mk 7 Mode.persistent])]
        []).unsubscribeFrom 0 7).subscriptions 0 ∧
    callsTo 7 (((EventDispatcher.mk [(0, [Subscriber.mk 7 Mode.persistent])]
        []).unsubscribeFrom 0 7).dispatch (fun _ => true) (Event.mk 0 6)).2 = 0 ∧
    mapRef ((EventDispatcher.mk [(0, [Subscriber.mk 7 Mode.persistent])]
        []).unsubscribeFrom 0 9).subscriptions 0 =
      mapRef (EventDispatcher.mk [(0, [Subscriber.mk 7 Mode.persistent])]
        []).subscriptions 0 := by
  refine ⟨fun hm => (unsubscribe_then_dispatch_C6
      (EventDispatcher.mk [(0, [Subscriber.mk 7 Mode.persistent])] []) 0 7).1 _ hm rfl,
    ?_, ?_⟩
  · exact (unsubscribe_then_dispatch_C6
      (EventDispatcher.mk [(0, [Subscriber.mk 7 Mode.persistent])] []) 0 7).2.1
      (fun _ => true) (Event.mk 0 6) rfl
  · exact (unsubscribe_then_dispatch_C6
      (EventDispatcher.mk [(0, [Subscriber.mk 7 Mode.persistent])] []) 0 9).2.2
      (by decide) 0

/-- C10: unsubscribing under an event-type key the registry has never seen
inserts a fresh empty subscription set under that key (the `operator[]`
side effect), leaves every other key's set untouched, and leaves the event
queue unchanged. -/
theorem unsubscribe_missing_key_C10 (d : EventDispatcher) (k : TypeKey)
    (L : ListenerId) (habs : mapFind d.subscriptions k = none) :
    mapFind (d.unsubscribeFrom k L).subscriptions k = some [] ∧
    (∀ k', k' ≠ k → mapFind (d.unsubscribeFrom k L).subscriptions k' =
      mapFind d.subscriptions k') ∧
    (d.unsubscribeFrom k L).eventQueue = d.eventQueue := by
  have hempty : setEraseId (mapRef d.subscriptions k) L = [] := by
    simp [mapRef, habs, setEraseId]
  refine ⟨?_, ?_, rfl⟩
  · show mapFind (mapSet d.subscriptions k
      (setEraseId (mapRef d.subscriptions k) L)) k = some []
    rw [hempty, mapFind_mapSet_self]
  · intro k' hk'
    exact mapFind_mapSet_ne d.subscriptions k k' _ hk'

/-- Witness for C10: the registry knows only key 0; unsubscribing under
key 5 inserts an empty set there, keeps key 0's set, and keeps the queue. -/
theorem unsubscribe_missing_key_C10_witness :
    mapFind ((EventDispatcher.mk [(0, [Subscriber.mk 7 Mode.persistent])]
      [Event.mk 0 1]).unsubscribeFrom 5 7).subscriptions 5 = some [] ∧
    mapFind ((EventDispatcher.mk [(0, [Subscriber.mk 7 Mode.persistent])]
      [Event.mk 0 1]).unsubscribeFrom 5 7).subscriptions 0 =
      mapFind (EventDispatcher.mk [(0, [Subscriber.mk 7 Mode.persistent])]
      [Event.mk 0 1]).subscriptions 0 ∧
    ((EventDispatcher.mk [(0, [Subscriber.mk 7 Mode.persistent])]
      [Event.mk 0 1]).unsubscribeFrom 5 7).eventQueue =
      (EventDispatcher.mk [(0, [Subscriber.mk 7 Mode.persistent])]
      [Event.mk 0 1]).eventQueue := by
  obtain ⟨h1, h2, h3⟩ := unsubscribe_missing_key_C10
    (EventDispatcher.mk [(0, [Subscriber.mk 7 Mode.persistent])] [Event.mk 0 1])
    5 7 (by decide)
  exact ⟨h1, h2 0 (by decide), h3⟩

/-- C7: the type-generic `dispatch(const Event&)` overload routes by the
event's dynamic type key, so on an instance of concrete type `E` it has
exactly the same effect on the registry, the queue and the listeners as
the typed overload `dispatch<E>(e)`. -/
theorem dispatch_overloads_agree_C7 (d : EventDispatcher)
    (alive : ListenerId → Bool) (k : TypeKey) (e : Event)
    (hkey : e.typeKey = k) :
    d.dispatchTyped alive k e = d.dispatch alive e := by
  subst hkey
  cases hf : mapFind d.subscriptions e.typeKey with
  | none =>
    simp [EventDispatcher.dispatchTyped, EventDispatcher.dispatch, dispatchSubs, hf]
  | some s =>
    simp [EventDispatcher.dispatchTyped, EventDispatcher.dispatch, dispatchSubs, hf]

/-- Witness for C7: both overloads coincide on a concrete dispatcher and a
concrete event of dynamic type 0. -/
theorem dispatch_overloads_agree_C7_witness :
    (EventDispatcher.mk [(0, [Subscriber.mk 7 Mode.oneShot])] []).dispatchTyped
        (fun _ => true) 0 (Event.mk 0 2) =
    (EventDispatcher.mk [(0, [Subscriber.mk 7 Mode.oneShot])] []).dispatch
        (fun _ => true) (Event.mk 0 2) :=
  dispatch_overloads_agree_C7
    (EventDispatcher.mk [(0, [Subscriber.mk 7 Mode.oneShot])] [])
    (fun _ => true) 0 (Event.mk 0 2) rfl

end Marschall

namespace Marschall

theorem setEmplace_mem_noop (s : SubSet) (sub : Subscriber)
    (h : s.any (fun x => x.id == sub.id) = true) : setEmplace s sub = s := by
  simp [setEmplace, h]

/-- C3 counterexample: subscribing listener 7 persistently and then
re-subscribing it one-shot under the same key does NOT replace the entry.
`unordered_set::emplace` keeps the existing element, so the original
`Persistent` entry stays, and it even survives a dispatch — the behavior
the claim attributes to the most recently registered mode (`OneShot`,
which would have removed the entry) does not occur. -/
theorem resubscribe_replaces_counterexample_C3 :
    mapRef (((EventDispatcher.mk [] []).subscribeTo 0 7).subscribeOnceTo
        0 7).subscriptions 0 = [Subscriber.mk 7 Mode.persistent] ∧
    mapRef ((((EventDispatcher.mk [] []).subscribeTo 0 7).subscribeOnceTo
        0 7).dispatch (fun _ => true) (Event.mk 0 0)).1.subscriptions 0 =
      [Subscriber.mk 7 Mode.persistent] := by
  decide

/-- C3 (amended): re-registering a listener identity that already has an
entry under the same type key leaves the registry observably unchanged —
no duplicate is created and the originally registered entry, hence the
EARLIEST registered persistence mode, remains in effect (idempotent
registration, but first-mode-wins rather than replacement). -/
theorem resubscribe_keeps_existing_C3
    (d : EventDispatcher) (k : TypeKey) (L : ListenerId)
    (hmem : (mapRef d.subscriptions k).any (fun x => x.id == L) = true) :
    (∀ k', mapRef (d.subscribeTo k L).subscriptions k' =
      mapRef d.subscriptions k') ∧
    (∀ k', mapRef (d.subscribeOnceTo k L).subscriptions k' =
      mapRef d.subscriptions k') := by
  have h1 : setEmplace (mapRef d.subscriptions k) (Subscriber.mk L Mode.persistent) =
      mapRef d.subscriptions k := setEmplace_mem_noop _ _ hmem
  have h2 : setEmplace (mapRef d.subscriptions k) (Subscriber.mk L Mode.oneShot) =
      mapRef d.subscriptions k := setEmplace_mem_noop _ _ hmem
  constructor <;> intro k'
  · calc mapRef (d.subscribeTo k L).subscriptions k'
        = mapRef (mapSet d.subscriptions k (setEmplace (mapRef d.subscriptions k)
            (Subscriber.mk L Mode.persistent))) k' := rfl
      _ = mapRef (mapSet d.subscriptions k (mapRef d.subscriptions k)) k' := by rw [h1]
      _ = mapRef d.subscriptions k' := mapRef_mapSet_ref _ _ _
  · calc mapRef (d.subscribeOnceTo k L).subscriptions k'
        = mapRef (mapSet d.subscriptions k (setEmplace (mapRef d.subscriptions k)
            (Subscriber.mk L Mode.oneShot))) k' := rfl
      _ = mapRef (mapSet d.subscriptions k (mapRef d.subscriptions k)) k' := by rw [h2]
      _ = mapRef d.subscriptions k' := mapRef_mapSet_ref _ _ _

/-- Witness for the amended C3: listener 7 is registered persistently;
re-subscribing it (either flavor) leaves its key's set unchanged. -/
theorem resubscribe_keeps_existing_C3_witness :
    mapRef ((EventDispatcher.mk [(0, [Subscriber.mk 7 Mode.persistent])]
        []).subscribeTo 0 7).subscriptions 0 =
      mapRef (EventDispatcher.mk [(0, [Subscriber.mk 7 Mode.persistent])]
        []).subscriptions 0 ∧
    mapRef ((EventDispatcher.mk [(0, [Subscriber.mk 7 Mode.persistent])]
        []).subscribeOnceTo 0 7).subscriptions 0 =
      mapRef (EventDispatcher.mk [(0, [Subscriber.mk 7 Mode.persistent])]
        []).subscriptions 0 := by
  obtain ⟨h1, h2⟩ := resubscribe_keeps_existing_C3
    (EventDispatcher.mk [(0, [Subscriber.mk 7 Mode.persistent])] []) 0 7 (by decide)
  exact ⟨h1 0, h2 0⟩

end Marschall

namespace Marschall

/-- The queue drain expressed as a left fold: dispatch each queued event in
FIFO order against the registry left by the previous dispatches,
accumulating the calls. -/
def dispatchFold (alive : ListenerId → Bool) (q : List Event) (m : SubMap) :
    SubMap × List Call :=
  q.foldl (fun acc e =>
    let p := dispatchSubs alive e acc.1
    (p.1, acc.2 ++ p.2)) (m, [])

theorem foldl_processQueueAux (alive : ListenerId → Bool) (q : List Event)
    (m : SubMap) (cs : List Call) :
    q.foldl (fun acc e =>
      let p := dispatchSubs alive e acc.1
      (p.1, acc.2 ++ p.2)) (m, cs) =
    ((processQueueAux alive q m).1, cs ++ (processQueueAux alive q m).2) := by
  induction q generalizing m cs with
  | nil => simp [processQueueAux]
  | cons e rest ih =>
    simp only [List.foldl_cons, processQueueAux]
    rw [ih]
    simp [List.append_assoc]

theorem processQueueAux_eq_dispatchFold (alive : ListenerId → Bool)
    (q : List Event) (m : SubMap) :
    processQueueAux alive q m = dispatchFold alive q m := by
  rw [dispatchFold, foldl_processQueueAux]
  simp

theorem drainOrder_spec (gen : Event → List Event) :
    ∀ (fuel : Nat) (q tr : List Event), drainOrder gen fuel q = some tr →
      q <+: tr ∧ ∀ e ∈ tr, ∀ g ∈ gen e, g ∈ tr := by
  intro fuel
  induction fuel with
  | zero =>
    intro q tr h
    cases q with
    | nil =>
      simp only [drainOrder, Option.some.injEq] at h
      subst h
      exact ⟨⟨[], rfl⟩, by simp⟩
    | cons e rest => simp [drainOrder] at h
  | succ n ih =>
    intro q tr h
    cases q with
    | nil =>
      simp only [drainOrder, Option.some.injEq] at h
      subst h
      exact ⟨⟨[], rfl⟩, by simp⟩
    | cons e rest =>
      simp only [drainOrder] at h
      cases hd : drainOrder gen n (rest ++ gen e) with
      | none => rw [hd] at h; simp at h
      | some tr' =>
        rw [hd] at h
        simp only [Option.map_some', Option.some.injEq] at h
        subst h
        obtain ⟨hpre, hclose⟩ := ih (rest ++ gen e) tr' hd
        obtain ⟨u, hu⟩ := hpre
        constructor
        · exact ⟨gen e ++ u, by simp [← hu, List.append_assoc]⟩
        · intro x hx g hg
          rcases List.mem_cons.mp hx with hxe | hxtr
          · subst hxe
            have hg1 : g ∈ rest ++ gen x := List.mem_append_right rest hg
            have hg2 : g ∈ tr' := by
              rw [← hu]
              exact List.mem_append_left u hg1
            exact List.mem_cons_of_mem _ hg2
          · exact List.mem_cons_of_mem _ (hclose x hxtr g hg)

/-- C4: `processQueue` drains the whole queue within the single call: the
queue ends empty and the call trace is exactly the left-to-right (FIFO)
fold of `dispatch` over the events that were queued, each dispatched
against the registry left by its predecessors; moreover, when listeners
enqueue further events during the drain (described by `gen`), a drain that
terminates dispatches all originally queued events first, in enqueue
order, and also consumes every event generated during the drain within
that same call. -/
theorem process_queue_drain_C4 (d : EventDispatcher) (alive : ListenerId → Bool)
    (gen : Event → List Event) (fuel : Nat) (tr : List Event)
    (hdrain : drainOrder gen fuel d.eventQueue = some tr) :
    (d.processQueue alive).1.eventQueue = [] ∧
    (d.processQueue alive).2 = (dispatchFold alive d.eventQueue d.subscriptions).2 ∧
    d.eventQueue <+: tr ∧
    (∀ e ∈ tr, ∀ g ∈ gen e, g ∈ tr) := by
  obtain ⟨hpre, hclose⟩ := drainOrder_spec gen fuel d.eventQueue tr hdrain
  refine ⟨rfl, ?_, hpre, hclose⟩
  show (processQueueAux alive d.eventQueue d.subscriptions).2 = _
  rw [processQueueAux_eq_dispatchFold]

/-- Witness for C4: two queued events, a listener whose dispatch of the
first event enqueues a third; the drain consumes the originals in FIFO
order and the generated event in the same call. -/
theorem process_queue_drain_C4_witness :
    ((EventDispatcher.mk [(0, [Subscriber.mk 7 Mode.persistent])]
        [Event.mk 0 1, Event.mk 0 2]).processQueue (fun _ => true)).1.eventQueue = [] ∧
    ((EventDispatcher.mk [(0, [Subscriber.mk 7 Mode.persistent])]
        [Event.mk 0 1, Event.mk 0 2]).processQueue (fun _ => true)).2 =
      (dispatchFold (fun _ => true) [Event.mk 0 1, Event.mk 0 2]
        [(0, [Subscriber.mk 7 Mode.persistent])]).2 ∧
    [Event.mk 0 1, Event.mk 0 2] <+: [Event.mk 0 1, Event.mk 0 2, Event.mk 0 9] ∧
    Event.mk 0 9 ∈ [Event.mk 0 1, Event.mk 0 2, Event.mk 0 9] := by
  obtain ⟨h1, h2, h3, h4⟩ := process_queue_drain_C4
    (EventDispatcher.mk [(0, [Subscriber.mk 7 Mode.persistent])]
      [Event.mk 0 1, Event.mk 0 2])
    (fun _ => true)
    (fun e => if e.payload == 1 then [Event.mk 0 9] else []) 10
    [Event.mk 0 1, Event.mk 0 2, Event.mk 0 9] (by decide)
  exact ⟨h1, h2, h3, h4 (Event.mk 0 1) (by decide) (Event.mk 0 9) (by decide)⟩

end Marschall

namespace Marschall

/-- C8: every dispatcher operation — `subscribeTo`, `subscribeOnceTo`,
`unsubscribeFrom`, `dispatch`, `queueEvent`, `processQueue` — preserves the
registry invariant that each per-key subscription set contains at most one
entry per distinct listener identity. -/
theorem registry_invariant_C8 (d : EventDispatcher) (k : TypeKey)
    (L : ListenerId) (alive : ListenerId → Bool) (e : Event) (hwf : d.WF) :
    (d.subscribeTo k L).WF ∧ (d.subscribeOnceTo k L).WF ∧
    (d.unsubscribeFrom k L).WF ∧ (d.dispatch alive e).1.WF ∧
    (d.queueEvent e).WF ∧ (d.processQueue alive).1.WF := by
  have href := SubMapWF_mapRef d.subscriptions k hwf
  refine ⟨?_, ?_, ?_, ?_, hwf, ?_⟩
  · exact SubMapWF_mapSet _ _ _ hwf (setEmplace_nodup _ _ href)
  · exact SubMapWF_mapSet _ _ _ hwf (setEmplace_nodup _ _ href)
  · exact SubMapWF_mapSet _ _ _ hwf (setEraseId_nodup _ _ href)
  · exact SubMapWF_dispatchSubs alive e _ hwf
  · exact SubMapWF_processQueueAux alive d.eventQueue _ hwf

/-- Witness for C8 on a two-subscriber, one-queued-event dispatcher. -/
theorem registry_invariant_C8_witness :
    ((EventDispatcher.mk [(0, [Subscriber.mk 7 Mode.persistent,
        Subscriber.mk 8 Mode.oneShot])] [Event.mk 0 1]).subscribeTo 1 8).WF ∧
    ((EventDispatcher.mk [(0, [Subscriber.mk 7 Mode.persistent,
        Subscriber.mk 8 Mode.oneShot])] [Event.mk 0 1]).subscribeOnceTo 1 8).WF ∧
    ((EventDispatcher.mk [(0, [Subscriber.mk 7 Mode.persistent,
        Subscriber.mk 8 Mode.oneShot])] [Event.mk 0 1]).unsubscribeFrom 1 8).WF ∧
    ((EventDispatcher.mk [(0, [Subscriber.mk 7 Mode.persistent,
        Subscriber.mk 8 Mode.oneShot])] [Event.mk 0 1]).dispatch
        (fun _ => true) (Event.mk 0 2)).1.WF ∧
    ((EventDispatcher.mk [(0, [Subscriber.mk 7 Mode.persistent,
        Subscriber.mk 8 Mode.oneShot])] [Event.mk 0 1]).queueEvent (Event.mk 0 2)).WF ∧
    ((EventDispatcher.mk [(0, [Subscriber.mk 7 Mode.persistent,
        Subscriber.mk 8 Mode.oneShot])] [Event.mk 0 1]).processQueue
        (fun _ => true)).1.WF :=
  registry_invariant_C8
    (EventDispatcher.mk [(0, [Subscriber.mk 7 Mode.persistent,
      Subscriber.mk 8 Mode.oneShot])] [Event.mk 0 1])
    1 8 (fun _ => true) (Event.mk 0 2) (by decide)

/-- C9: for every concrete event type deriving `EventBase<EType>`, the
virtual `getTypeKey()` of every instance equals the static
`EventBase<EType>::getStaticTypeKey()`; the key is identical across all
instances of the same type; and distinct concrete types yield distinct
keys. -/
theorem type_key_contract_C9 :
    (∀ (t : EventH.TypeId) (e : EventH.EventValue), e.dynType = t →
      EventH.getTypeKey e = EventH.getStaticTypeKey t) ∧
    (∀ (t : EventH.TypeId) (e1 e2 : EventH.EventValue), e1.dynType = t →
      e2.dynType = t → EventH.getTypeKey e1 = EventH.getTypeKey e2) ∧
    (∀ t1 t2 : EventH.TypeId, t1 ≠ t2 →
      EventH.getEventTypeKey t1 ≠ EventH.getEventTypeKey t2) := by
  refine ⟨?_, ?_, ?_⟩
  · intro t e he
    simp [EventH.getTypeKey, he]
  · intro t e1 e2 h1 h2
    simp [EventH.getTypeKey, h1, h2]
  · intro t1 t2 h
    simpa [EventH.getEventTypeKey] using h

/-- Witness for C9: two instances of type 3 share the static key of type 3,
and types 3 and 5 have distinct keys. -/
theorem type_key_contract_C9_witness :
    EventH.getTypeKey (EventH.EventValue.mk 3 10) = EventH.getStaticTypeKey 3 ∧
    EventH.getTypeKey (EventH.EventValue.mk 3 10) =
      EventH.getTypeKey (EventH.EventValue.mk 3 11) ∧
    EventH.getEventTypeKey 3 ≠ EventH.getEventTypeKey 5 := by
  obtain ⟨h1, h2, h3⟩ := type_key_contract_C9
  exact ⟨h1 3 (EventH.EventValue.mk 3 10) rfl,
    h2 3 (EventH.EventValue.mk 3 10) (EventH.EventValue.mk 3 11) rfl rfl,
    h3 3 5 (by decide)⟩

end Marschall
